import Mathlib

/-!
Verification of the Terrors-Miner profile-to-process binding engine
(src/src-tauri/src/lib.rs) against its natural-language specification.

The Rust source keeps four global structures protected by mutexes:
  - `VRCHAT_PROCESSES : HashMap<u32, u32>`  (profile -> pid binding table)
  - `PENDING_PROFILES : VecDeque<u32>`      (FIFO queue of profiles awaiting a pid)
  - `MISSED_DETECTIONS : HashMap<u32, u32>` (consecutive missed-poll counters)
  - `STOPPING_PROFILES : HashSet<u32>`      (profiles currently inside stop_vrchat)

We embed this state as association lists / lists of naturals, and the three
operations (`launch_vrchat`, `stop_vrchat`, and one iteration of the loop inside
`spawn_vrchat_pid_monitor`) as pure state-transition functions.  The OS process
directory and the spawn / kill primitives are passed in as explicit environment
data.  Machine integers (`u32`) are modelled as `Nat`; the only place where the
32-bit bound matters is `u32::from_str` inside `extract_profile_from_cmd`,
where the bound appears explicitly.
-/

namespace TerrorsMiner

/-! ### String helpers

Rust `str::contains`, `str::find`, `to_lowercase` and slicing are modelled on
`List Char`.  `strContainsAux pat s` is Rust `s.contains(pat)` (substring
containment); `afterFirst pat s` is Rust
`s.find(pat).map(|start| &s[start + pat.len()..])`. -/

/-- Substring containment: does `s` contain `pat` as a contiguous run?
Models Rust `str::contains`. -/
def strContainsAux (pat : List Char) : List Char → Bool
  | [] => pat.isEmpty
  | c :: rest => pat.isPrefixOf (c :: rest) || strContainsAux pat rest

/-- ASCII lowercasing of a character list; models Rust `str::to_lowercase`
on the ASCII process names/paths the engine compares. -/
def lowerList (s : List Char) : List Char := s.map Char.toLower

/-- Everything after the first occurrence of `pat` in the input, or `none` if
`pat` does not occur.  Models `s.find(pat)` followed by the slice
`&s[start + pat.len()..]` in `extract_profile_from_cmd`. -/
def afterFirst (pat : List Char) : List Char → Option (List Char)
  | [] => none
  | c :: rest =>
    if pat.isPrefixOf (c :: rest) then some ((c :: rest).drop pat.length)
    else afterFirst pat rest

/-- The token prefix `--profile=` searched for by `extract_profile_from_cmd`. -/
def profileTag : List Char := ("--profile=").toList

/-- Decimal value of a digit run, accumulated left to right exactly as
`u32::from_str` accumulates. -/
def natOfDigits (ds : List Char) : Nat :=
  ds.foldl (fun acc c => acc * 10 + (c.toNat - 48)) 0

/-- Rust `str::parse::<u32>()`: an optional leading plus sign, then a nonempty
run of decimal digits whose value fits in 32 bits; anything else is `none`. -/
def parseU32 (cs : List Char) : Option Nat :=
  let body := if cs.head? = some '+' then cs.tail else cs
  if !body.isEmpty && body.all Char.isDigit then
    let n := natOfDigits body
    if n < 4294967296 then some n else none
  else none

/-- Model of `extract_profile_from_cmd` (lib.rs lines 289-300): find the first
occurrence of `--profile=`, take the characters after it up to the next space
(or end of string), and parse them as a `u32`. -/
def extract_profile_from_cmd (cmd_line : List Char) : Option Nat :=
  match afterFirst profileTag cmd_line with
  | some profile_str => parseU32 (profile_str.takeWhile (fun c => c ≠ ' '))
  | none => none

/-! ### Data model -/

/-- One entry of the OS process directory, as consumed from `sysinfo`:
pid, process name, executable path (empty when absent, matching
`unwrap_or_default`), and the space-joined command line. -/
structure ProcInfo where
  pid : Nat
  name : String
  exe : String
  cmd : String
  deriving DecidableEq

/-- The four global mutable structures of lib.rs, taken at a point in time:
`stored` is VRCHAT_PROCESSES (profile -> pid), `pending` is PENDING_PROFILES
(front of the queue first), `missed` is MISSED_DETECTIONS, and `stopping` is
STOPPING_PROFILES. -/
structure MState where
  stored : List (Nat × Nat)
  pending : List Nat
  missed : List (Nat × Nat)
  stopping : List Nat
  deriving DecidableEq

/-- The `VRChatResult` struct returned by the Tauri commands. -/
structure VRChatResult where
  success : Bool
  message : String
  process_id : Option Nat
  waiting_for_main_process : Option Bool
  deriving DecidableEq

/-- HashMap get: the value stored at a key, if any. -/
def lookupK (k : Nat) : List (Nat × Nat) → Option Nat
  | [] => none
  | e :: rest => if e.1 = k then some e.2 else lookupK k rest

/-- HashMap insert: replace the value at the key if present, otherwise append
a fresh entry. -/
def insertKey (m : List (Nat × Nat)) (k v : Nat) : List (Nat × Nat) :=
  if (lookupK k m).isSome then
    m.map (fun e => if e.1 = k then (k, v) else e)
  else m ++ [(k, v)]

/-- HashMap remove: drop every entry carrying the key. -/
def eraseKey (m : List (Nat × Nat)) (k : Nat) : List (Nat × Nat) :=
  m.filter (fun e => e.1 != k)

/-! ### Launch operation (lib.rs lines 47-102) -/

/-- Environment consumed by `launch_vrchat`: whether a pid is currently alive
in the process directory, and the outcome of `Command::spawn` (the launcher
pid on success, the OS error text on failure). -/
structure LaunchEnv where
  alive : Nat → Bool
  spawn : Except String Nat

/-- Spawn branch of `launch_vrchat` (lines 69-101): on success the profile is
pushed onto the back of the pending queue and the launcher pid is returned
informationally; on failure nothing changes. -/
def launchSpawn (env : LaunchEnv) (profile : Nat) (st : MState) :
    VRChatResult × MState :=
  match env.spawn with
  | Except.ok launcher_pid =>
    (⟨true, "VRChat Profile " ++ toString profile ++ " を起動しました（本体の起動を監視中...）",
      some launcher_pid, some true⟩,
     { st with pending := st.pending ++ [profile] })
  | Except.error e =>
    (⟨false, "VRChatの起動に失敗しました: " ++ e, none, some false⟩, st)

/-- Model of `launch_vrchat` (lines 47-102): if the binding table already holds
a live pid for the profile, fail with `AlreadyRunning` carrying that pid and
change nothing; otherwise spawn. -/
def launch_vrchat (env : LaunchEnv) (profile : Nat) (st : MState) :
    VRChatResult × MState :=
  match lookupK profile st.stored with
  | some existing_pid =>
    if env.alive existing_pid then
      (⟨false, "Profile " ++ toString profile ++ " は既に実行中です (PID: " ++
        toString existing_pid ++ ")", some existing_pid, some false⟩, st)
    else launchSpawn env profile st
  | none => launchSpawn env profile st

/-! ### Stop operation (lib.rs lines 106-230) -/

/-- Environment consumed by `stop_vrchat`: the process directory snapshot, and
for each pid the successive "has the process disappeared" observations made by
the polling loop of `kill_and_wait` after the terminate signal. -/
structure StopEnv where
  dir : List ProcInfo
  deadChecks : Nat → List Bool

/-- Bounded polling loop of `kill_and_wait` (lines 147-153): up to `n` checks,
returning `true` as soon as one check sees the process gone. -/
def killLoop : Nat → List Bool → Bool
  | 0, _ => false
  | _ + 1, [] => false
  | n + 1, d :: rest => if d then true else killLoop n rest

/-- Model of `kill_and_wait` (lines 139-155): send the terminate signal, then
poll at most five times; `true` iff the pid disappeared within those checks. -/
def kill_and_wait (checks : List Bool) : Bool := killLoop 5 checks

/-- The stored-pid sanity check of `stop_vrchat` (lines 162-164): process name
or executable path, lowercased, contains "vrchat". -/
def looksLikeVRChat (pr : ProcInfo) : Bool :=
  strContainsAux (("vrchat").toList) (lowerList pr.name.toList) ||
  strContainsAux (("vrchat").toList) (lowerList pr.exe.toList)

/-- Fallback scan of `stop_vrchat` (lines 190-197): the first directory entry
whose command line contains the substring `--profile=<profile>`. -/
def scanForProfile (dir : List ProcInfo) (profile : Nat) : Option Nat :=
  (dir.find? (fun pr =>
    strContainsAux (("--profile=" ++ toString profile).toList) pr.cmd.toList)).map
    (fun pr => pr.pid)

/-- Scan branch of `stop_vrchat` (lines 189-228), reached when there is no
stored pid or the stored pid does not look like VRChat.  `pending1` and
`stopping1` are the already-updated queue and suppression set. -/
def stopScan (env : StopEnv) (profile : Nat) (pending1 stopping1 : List Nat)
    (st : MState) : VRChatResult × MState :=
  match scanForProfile env.dir profile with
  | some pid =>
    if kill_and_wait (env.deadChecks pid) then
      (⟨true, "VRChat Profile " ++ toString profile ++ " を停止しました (PID: " ++
        toString pid ++ ")", some pid, some false⟩,
       ⟨eraseKey st.stored profile, pending1, st.missed, stopping1⟩)
    else
      (⟨false, "Profile " ++ toString profile ++ " のプロセスの強制終了に失敗しました (PID: " ++
        toString pid ++ ")", some pid, some false⟩,
       ⟨st.stored, pending1, st.missed, stopping1⟩)
  | none =>
    (⟨false, "Profile " ++ toString profile ++ " のプロセスが見つかりません", none, some false⟩,
     ⟨st.stored, pending1, st.missed, stopping1⟩)

/-- Model of `stop_vrchat` (lines 106-230).  The profile is first removed from
the pending queue; the suppression flag is set on entry and released by the
RAII `StopGuard` on every exit path, so across the whole call the net effect
on the stopping set is removal.  Then the stored pid is tried (if it looks
like VRChat), falling back to the command-line scan. -/
def stop_vrchat (env : StopEnv) (profile : Nat) (st : MState) :
    VRChatResult × MState :=
  let pending1 := st.pending.filter (fun p => p != profile)
  let stopping1 := st.stopping.filter (fun p => p != profile)
  match lookupK profile st.stored with
  | some pid =>
    match env.dir.find? (fun pr => pr.pid = pid) with
    | some pr =>
      if looksLikeVRChat pr then
        if kill_and_wait (env.deadChecks pid) then
          (⟨true, "VRChat Profile " ++ toString profile ++ " を停止しました",
            some pid, some false⟩,
           ⟨eraseKey st.stored profile, pending1, st.missed, stopping1⟩)
        else
          (⟨false, "Profile " ++ toString profile ++
            " のプロセスの強制終了に失敗しました (PID: " ++ toString pid ++ ")",
            some pid, some false⟩,
           ⟨st.stored, pending1, st.missed, stopping1⟩)
      else stopScan env profile pending1 stopping1 st
    | none => stopScan env profile pending1 stopping1 st
  | none => stopScan env profile pending1 stopping1 st

/-- The pid that a `stop_vrchat` call will signal, factored out of the
branching of lines 157-220: the stored pid when it exists in the directory and
looks like VRChat, otherwise the result of the command-line scan. -/
def resolveStopPid (dir : List ProcInfo) (stored : List (Nat × Nat))
    (profile : Nat) : Option Nat :=
  match lookupK profile stored with
  | some pid =>
    match dir.find? (fun pr => pr.pid = pid) with
    | some pr => if looksLikeVRChat pr then some pid else scanForProfile dir profile
    | none => scanForProfile dir profile
  | none => scanForProfile dir profile

/-! ### Monitor loop (lib.rs lines 304-427)

One iteration of the endless loop inside `spawn_vrchat_pid_monitor` is split
into the detection filter, the eviction pass over the binding table, and the
assignment pass over the detected processes. -/

/-- Detection filter (lines 313-326): keep directory entries whose lowercased
name contains (or equals) "vrchat.exe" but not "start_protected_game", and
pair each pid with its extracted profile label. -/
def detectVRChat (dir : List ProcInfo) : List (Nat × Option Nat) :=
  (dir.filter (fun pr =>
    let nl := lowerList pr.name.toList
    (strContainsAux (("vrchat.exe").toList) nl || nl == ("vrchat.exe").toList) &&
    !strContainsAux (("start_protected_game").toList) nl)).map
    (fun pr => (pr.pid, extract_profile_from_cmd pr.cmd.toList))

/-- One step of the eviction pass (lines 344-361), processing one binding-table
entry `e = (profile, pid)` against the accumulator `(missed, to_remove)`:
suppressed profiles are skipped; a detected pid resets the counter; an
undetected pid increments it and marks the entry for removal at count ≥ 2. -/
def evictStep (stopping detectedPids : List Nat)
    (acc : List (Nat × Nat) × List Nat) (e : Nat × Nat) :
    List (Nat × Nat) × List Nat :=
  if stopping.contains e.1 then acc
  else if detectedPids.contains e.2 then (eraseKey acc.1 e.1, acc.2)
  else
    let cnt := (lookupK e.1 acc.1).getD 0 + 1
    if 2 ≤ cnt then (insertKey acc.1 e.1 cnt, acc.2 ++ [e.1])
    else (insertKey acc.1 e.1 cnt, acc.2)

/-- Eviction pass (lines 337-369): fold `evictStep` over the binding table,
then remove every marked profile from both the table and the counters.
Returns the updated table and counters. -/
def evictPass (stopping detectedPids : List Nat)
    (stored missed : List (Nat × Nat)) : List (Nat × Nat) × List (Nat × Nat) :=
  let fr := stored.foldl (evictStep stopping detectedPids) (missed, [])
  (fr.2.foldl eraseKey stored, fr.2.foldl eraseKey fr.1)

/-- Pop loop of the unlabeled-pid branch (lines 403-415): pop profiles from the
front of the pending queue, discarding suppressed ones, until a non-suppressed
profile is found (returned with the remaining queue) or the queue is empty. -/
def assignPending (stopping : List Nat) : List Nat → Option Nat × List Nat
  | [] => (none, [])
  | q :: rest =>
    if stopping.contains q then assignPending stopping rest
    else (some q, rest)

/-- One step of the assignment pass (lines 376-421), processing one detected
`(pid, label)` pair against the accumulator `(stored, pending)`: labeled pids
create or migrate the labeled profile's binding unless it is suppressed;
unlabeled pids not already bound consume the pending queue FIFO. -/
def assignStep (stopping : List Nat) (acc : List (Nat × Nat) × List Nat)
    (det : Nat × Option Nat) : List (Nat × Nat) × List Nat :=
  match det.2 with
  | some profile =>
    if stopping.contains profile then acc
    else
      match lookupK profile acc.1 with
      | some old_pid =>
        if old_pid ≠ det.1 then (insertKey acc.1 profile det.1, acc.2) else acc
      | none => (insertKey acc.1 profile det.1, acc.2)
  | none =>
    if acc.1.any (fun e => e.2 == det.1) then acc
    else
      match assignPending stopping acc.2 with
      | (some profile, rest) => (insertKey acc.1 profile det.1, rest)
      | (none, rest) => (acc.1, rest)

/-- One iteration of the loop inside `spawn_vrchat_pid_monitor`
(lines 308-425), given the detected `(pid, label)` pairs of this cycle:
eviction pass first, then assignment pass, with the stopping set snapshotted
for the whole cycle. -/
def monitorCycle (detected : List (Nat × Option Nat)) (st : MState) : MState :=
  let detectedPids := detected.map Prod.fst
  let ev := evictPass st.stopping detectedPids st.stored st.missed
  let asg := detected.foldl (assignStep st.stopping) (ev.1, st.pending)
  { stored := asg.1, pending := asg.2, missed := ev.2, stopping := st.stopping }

/-- Full monitor cycle starting from a directory snapshot: detection filter
followed by `monitorCycle`. -/
def monitorCycleDir (dir : List ProcInfo) (st : MState) : MState :=
  monitorCycle (detectVRChat dir) st

/-! ### Association-list map lemmas -/

/-- Keys of an association list are pairwise distinct.  This is the HashMap
representation invariant; it holds for `VRCHAT_PROCESSES` and is preserved by
every operation of the engine. -/
@[reducible] def keysNodup (m : List (Nat × Nat)) : Prop := (m.map Prod.fst).Nodup

theorem lookupK_eq_none_iff (m : List (Nat × Nat)) (k : Nat) :
    lookupK k m = none ↔ k ∉ m.map Prod.fst := by
  induction m with
  | nil => simp [lookupK]
  | cons e rest ih =>
    simp only [lookupK, List.map_cons, List.mem_cons]
    by_cases hk : e.1 = k
    · simp [hk]
    · rw [if_neg hk, ih]
      constructor
      · intro hn hor
        rcases hor with h1 | h2
        · exact hk h1.symm
        · exact hn h2
      · intro hn h2
        exact hn (Or.inr h2)

theorem lookupK_insertKey_self (m : List (Nat × Nat)) (k v : Nat) :
    lookupK k (insertKey m k v) = some v := by
  unfold insertKey
  by_cases hs : (lookupK k m).isSome
  · simp only [hs, if_true]
    induction m with
    | nil => simp [lookupK] at hs
    | cons e rest ih =>
      by_cases hk : e.1 = k
      · simp [lookupK, hk]
      · simp only [lookupK, hk, if_false] at hs
        simp [lookupK, hk, ih hs]
  · simp only [hs, if_false]
    have hnone : lookupK k m = none := Option.not_isSome_iff_eq_none.mp hs
    induction m with
    | nil => simp [lookupK]
    | cons e rest ih =>
      by_cases hk : e.1 = k
      · simp [lookupK, hk] at hnone
      · simp only [lookupK, hk, if_false] at hnone
        simp [lookupK, hk]
        exact ih (by simp [hnone]) hnone

theorem lookupK_map_replace_ne (m : List (Nat × Nat)) (k v p : Nat) (h : p ≠ k) :
    lookupK p (m.map (fun e => if e.1 = k then (k, v) else e)) = lookupK p m := by
  induction m with
  | nil => rfl
  | cons e rest ih =>
    rw [List.map_cons]
    by_cases hek : e.1 = k
    · rw [if_pos hek]
      have hkp : ¬ k = p := fun hx => h hx.symm
      have hep : ¬ e.1 = p := fun hx => h (hx ▸ hek.symm ▸ hek)
      simp only [lookupK, hkp, hep, if_false]
      exact ih
    · rw [if_neg hek]
      by_cases hep : e.1 = p
      · simp [lookupK, hep]
      · simp only [lookupK, hep, if_false]
        exact ih

theorem lookupK_append_single_ne (m : List (Nat × Nat)) (k v p : Nat) (h : p ≠ k) :
    lookupK p (m ++ [(k, v)]) = lookupK p m := by
  induction m with
  | nil =>
    have hkp : ¬ k = p := fun hx => h hx.symm
    simp [lookupK, hkp]
  | cons e rest ih =>
    by_cases hep : e.1 = p
    · simp [lookupK, hep]
    · simp only [List.cons_append, lookupK, hep, if_false]
      exact ih

theorem lookupK_insertKey_ne (m : List (Nat × Nat)) (k v p : Nat) (h : p ≠ k) :
    lookupK p (insertKey m k v) = lookupK p m := by
  unfold insertKey
  by_cases hs : (lookupK k m).isSome
  · rw [if_pos hs]
    exact lookupK_map_replace_ne m k v p h
  · rw [if_neg hs]
    exact lookupK_append_single_ne m k v p h

theorem lookupK_eraseKey_self (m : List (Nat × Nat)) (k : Nat) :
    lookupK k (eraseKey m k) = none := by
  unfold eraseKey
  induction m with
  | nil => simp [lookupK]
  | cons e rest ih =>
    by_cases hk : e.1 = k
    · simpa [List.filter, hk] using ih
    · have hne : (e.1 != k) = true := by simp [hk]
      simp only [List.filter, hne]
      simpa [lookupK, hk] using ih

theorem lookupK_eraseKey_ne (m : List (Nat × Nat)) (k p : Nat) (h : p ≠ k) :
    lookupK p (eraseKey m k) = lookupK p m := by
  unfold eraseKey
  induction m with
  | nil => simp
  | cons e rest ih =>
    by_cases hek : e.1 = k
    · have hep : ¬ e.1 = p := fun hx => h (hx ▸ hek.symm ▸ hek)
      have hfe : (e.1 != k) = false := by simp [hek]
      simp only [List.filter, hfe, lookupK, hep, if_false]
      exact ih
    · have hne : (e.1 != k) = true := by simp [hek]
      simp only [List.filter, hne]
      by_cases hep : e.1 = p
      · simp [lookupK, hep]
      · simp only [lookupK, hep, if_false]
        exact ih

theorem lookupK_eraseFold_of_not_mem (tr : List Nat) (m : List (Nat × Nat)) (p : Nat)
    (h : p ∉ tr) : lookupK p (tr.foldl eraseKey m) = lookupK p m := by
  induction tr generalizing m with
  | nil => rfl
  | cons q rest ih =>
    have hpq : p ≠ q := fun hx => h (hx ▸ List.mem_cons_self q rest)
    have hrest : p ∉ rest := fun hx => h (List.mem_cons_of_mem q hx)
    simp only [List.foldl]
    rw [ih _ hrest, lookupK_eraseKey_ne m q p hpq]

theorem lookupK_eraseFold_none (tr : List Nat) (m : List (Nat × Nat)) (p : Nat)
    (h : lookupK p m = none) : lookupK p (tr.foldl eraseKey m) = none := by
  induction tr generalizing m with
  | nil => exact h
  | cons q rest ih =>
    simp only [List.foldl]
    apply ih
    by_cases hpq : p = q
    · subst hpq; exact lookupK_eraseKey_self m p
    · rw [lookupK_eraseKey_ne m q p hpq]; exact h

theorem lookupK_eraseFold_of_mem (tr : List Nat) (m : List (Nat × Nat)) (p : Nat)
    (h : p ∈ tr) : lookupK p (tr.foldl eraseKey m) = none := by
  induction tr generalizing m with
  | nil => cases h
  | cons q rest ih =>
    simp only [List.foldl]
    by_cases hpq : p = q
    · subst hpq
      exact lookupK_eraseFold_none rest (eraseKey m p) p (lookupK_eraseKey_self m p)
    · cases h with
      | head => exact absurd rfl hpq
      | tail _ hmem => exact ih _ hmem

theorem keysNodup_insertKey (m : List (Nat × Nat)) (k v : Nat)
    (h : keysNodup m) : keysNodup (insertKey m k v) := by
  unfold insertKey
  by_cases hs : (lookupK k m).isSome
  · rw [if_pos hs]
    unfold keysNodup at h ⊢
    have heq : (m.map (fun e => if e.1 = k then (k, v) else e)).map Prod.fst
        = m.map Prod.fst := by
      rw [List.map_map]
      apply List.map_congr_left
      intro e _
      by_cases he : e.1 = k <;> simp [he]
    rw [heq]; exact h
  · rw [if_neg hs]
    unfold keysNodup at h ⊢
    have hk : k ∉ m.map Prod.fst :=
      (lookupK_eq_none_iff m k).mp (Option.not_isSome_iff_eq_none.mp hs)
    rw [List.map_append]
    simp only [List.nodup_append, List.map_cons, List.map_nil]
    refine ⟨h, List.nodup_singleton k, ?_⟩
    intro a ha hak
    simp at hak
    exact hk (hak ▸ ha)

theorem keysNodup_eraseKey (m : List (Nat × Nat)) (k : Nat)
    (h : keysNodup m) : keysNodup (eraseKey m k) := by
  unfold keysNodup at h ⊢
  exact h.sublist ((List.filter_sublist m).map Prod.fst)

theorem keysNodup_eraseFold (tr : List Nat) (m : List (Nat × Nat))
    (h : keysNodup m) : keysNodup (tr.foldl eraseKey m) := by
  induction tr generalizing m with
  | nil => exact h
  | cons q rest ih => exact ih _ (keysNodup_eraseKey m q h)

theorem lookupK_some_decomp (m : List (Nat × Nat)) (p v : Nat) (hnd : keysNodup m)
    (h : lookupK p m = some v) :
    ∃ L1 L2, m = L1 ++ (p, v) :: L2 ∧ p ∉ L1.map Prod.fst ∧ p ∉ L2.map Prod.fst := by
  induction m with
  | nil => simp [lookupK] at h
  | cons e rest ih =>
    unfold keysNodup at hnd
    simp only [List.map_cons, List.nodup_cons] at hnd
    by_cases hp : e.1 = p
    · simp only [lookupK, hp, if_pos] at h
      refine ⟨[], rest, ?_, by simp, hp ▸ hnd.1⟩
      obtain ⟨e1, e2⟩ := e
      simp only [List.nil_append]
      simp at hp h
      rw [hp, h]
    · simp only [lookupK, hp, if_false] at h
      obtain ⟨L1, L2, heq, h1, h2⟩ := ih hnd.2 h
      refine ⟨e :: L1, L2, by simp [heq], ?_, h2⟩
      simp only [List.map_cons, List.mem_cons, not_or]
      exact ⟨fun hx => hp hx.symm, h1⟩

/-! ### Monitor-pass lemmas -/

theorem evictStep_stop (s dp : List Nat) (acc : List (Nat × Nat) × List Nat)
    (e : Nat × Nat) (h : e.1 ∈ s) :
    evictStep s dp acc e = acc := by
  simp [evictStep, h]

theorem evictStep_det (s dp : List Nat) (acc : List (Nat × Nat) × List Nat)
    (e : Nat × Nat) (h1 : e.1 ∉ s) (h2 : e.2 ∈ dp) :
    evictStep s dp acc e = (eraseKey acc.1 e.1, acc.2) := by
  simp [evictStep, h1, h2]

theorem evictStep_miss (s dp : List Nat) (acc : List (Nat × Nat) × List Nat)
    (e : Nat × Nat) (h1 : e.1 ∉ s) (h2 : e.2 ∉ dp) :
    evictStep s dp acc e =
      (insertKey acc.1 e.1 ((lookupK e.1 acc.1).getD 0 + 1),
       if 2 ≤ (lookupK e.1 acc.1).getD 0 + 1 then acc.2 ++ [e.1] else acc.2) := by
  by_cases hc : 2 ≤ (lookupK e.1 acc.1).getD 0 + 1 <;>
    simp [evictStep, h1, h2, hc]

theorem evictFold_preserve (s dp : List Nat) (p : Nat) (L : List (Nat × Nat)) :
    ∀ (m : List (Nat × Nat)) (tr : List Nat),
      (∀ e ∈ L, e.1 = p → p ∈ s) →
      lookupK p (L.foldl (evictStep s dp) (m, tr)).1 = lookupK p m ∧
      ((p ∈ (L.foldl (evictStep s dp) (m, tr)).2) ↔ p ∈ tr) := by
  induction L with
  | nil => intro m tr _; exact ⟨rfl, Iff.rfl⟩
  | cons e rest ih =>
    intro m tr hh
    have hrest : ∀ x ∈ rest, x.1 = p → p ∈ s :=
      fun x hx => hh x (List.mem_cons_of_mem e hx)
    simp only [List.foldl]
    by_cases hstop : e.1 ∈ s
    · rw [evictStep_stop s dp (m, tr) e hstop]
      exact ih m tr hrest
    · have hep : e.1 ≠ p := fun hx => hstop (hx ▸ hh e (List.mem_cons_self e rest) hx)
      have hpe : p ≠ e.1 := fun hx => hep hx.symm
      by_cases hdet : e.2 ∈ dp
      · rw [evictStep_det s dp (m, tr) e hstop hdet]
        obtain ⟨h1, h2⟩ := ih (eraseKey m e.1) tr hrest
        exact ⟨h1.trans (lookupK_eraseKey_ne m e.1 p hpe), h2⟩
      · rw [evictStep_miss s dp (m, tr) e hstop hdet]
        by_cases hc : 2 ≤ (lookupK e.1 m).getD 0 + 1
        · rw [if_pos hc]
          obtain ⟨h1, h2⟩ := ih (insertKey m e.1 ((lookupK e.1 m).getD 0 + 1)) (tr ++ [e.1]) hrest
          refine ⟨h1.trans (lookupK_insertKey_ne m e.1 _ p hpe), ?_⟩
          rw [h2]
          simp [hpe]
        · rw [if_neg hc]
          obtain ⟨h1, h2⟩ := ih (insertKey m e.1 ((lookupK e.1 m).getD 0 + 1)) tr hrest
          exact ⟨h1.trans (lookupK_insertKey_ne m e.1 _ p hpe), h2⟩

theorem assignPending_some (s l : List Nat) (q : Nat) (rest : List Nat)
    (h : assignPending s l = (some q, rest)) :
    q ∉ s ∧ q ∈ l ∧ ∀ x ∈ rest, x ∈ l := by
  induction l with
  | nil => simp [assignPending] at h
  | cons a as ih =>
    by_cases hs : a ∈ s
    · simp only [assignPending] at h
      rw [if_pos (by simpa using hs)] at h
      obtain ⟨h1, h2, h3⟩ := ih h
      exact ⟨h1, List.mem_cons_of_mem a h2, fun x hx => List.mem_cons_of_mem a (h3 x hx)⟩
    · simp only [assignPending] at h
      rw [if_neg (by simpa using hs)] at h
      injection h with h4 h5
      injection h4 with h6
      subst h6
      subst h5
      exact ⟨hs, List.mem_cons_self a as, fun x hx => List.mem_cons_of_mem a hx⟩

theorem assignPending_sub (s l : List Nat) :
    ∀ x ∈ (assignPending s l).2, x ∈ l := by
  induction l with
  | nil => simp [assignPending]
  | cons a as ih =>
    by_cases hs : a ∈ s
    · simp only [assignPending]
      rw [if_pos (by simpa using hs)]
      exact fun x hx => List.mem_cons_of_mem a (ih x hx)
    · simp only [assignPending]
      rw [if_neg (by simpa using hs)]
      exact fun x hx => List.mem_cons_of_mem a hx

theorem assignStep_labeled_stop (s : List Nat) (acc : List (Nat × Nat) × List Nat)
    (pid profile : Nat) (h : profile ∈ s) :
    assignStep s acc (pid, some profile) = acc := by
  simp [assignStep, h]

theorem assignStep_labeled_same (s : List Nat) (acc : List (Nat × Nat) × List Nat)
    (pid profile : Nat) (h1 : profile ∉ s) (h2 : lookupK profile acc.1 = some pid) :
    assignStep s acc (pid, some profile) = acc := by
  simp [assignStep, h1, h2]

theorem assignStep_labeled_move (s : List Nat) (acc : List (Nat × Nat) × List Nat)
    (pid profile old : Nat) (h1 : profile ∉ s) (h2 : lookupK profile acc.1 = some old)
    (h3 : old ≠ pid) :
    assignStep s acc (pid, some profile) = (insertKey acc.1 profile pid, acc.2) := by
  simp [assignStep, h1, h2, h3]

theorem assignStep_labeled_new (s : List Nat) (acc : List (Nat × Nat) × List Nat)
    (pid profile : Nat) (h1 : profile ∉ s) (h2 : lookupK profile acc.1 = none) :
    assignStep s acc (pid, some profile) = (insertKey acc.1 profile pid, acc.2) := by
  simp [assignStep, h1, h2]

theorem assignStep_unlabeled_bound (s : List Nat) (acc : List (Nat × Nat) × List Nat)
    (pid : Nat) (h : acc.1.any (fun e => e.2 == pid) = true) :
    assignStep s acc (pid, none) = acc := by
  simp [assignStep, h]

theorem assignStep_unlabeled_pop (s : List Nat) (acc : List (Nat × Nat) × List Nat)
    (pid profile : Nat) (rest : List Nat)
    (h : acc.1.any (fun e => e.2 == pid) = false)
    (hp : assignPending s acc.2 = (some profile, rest)) :
    assignStep s acc (pid, none) = (insertKey acc.1 profile pid, rest) := by
  simp [assignStep, h, hp]

theorem assignStep_unlabeled_empty (s : List Nat) (acc : List (Nat × Nat) × List Nat)
    (pid : Nat) (rest : List Nat)
    (h : acc.1.any (fun e => e.2 == pid) = false)
    (hp : assignPending s acc.2 = (none, rest)) :
    assignStep s acc (pid, none) = (acc.1, rest) := by
  simp [assignStep, h, hp]

theorem assignStep_pending_sub (s : List Nat) (acc : List (Nat × Nat) × List Nat)
    (det : Nat × Option Nat) :
    ∀ x ∈ (assignStep s acc det).2, x ∈ acc.2 := by
  obtain ⟨pid, lbl⟩ := det
  cases lbl with
  | none =>
    by_cases hb : acc.1.any (fun e => e.2 == pid) = true
    · rw [assignStep_unlabeled_bound s acc pid hb]
      exact fun x hx => hx
    · have hbf : acc.1.any (fun e => e.2 == pid) = false :=
        Bool.not_eq_true _ ▸ eq_false_of_ne_true hb
      rcases hap : assignPending s acc.2 with ⟨opt, rest⟩
      cases opt with
      | some profile =>
        rw [assignStep_unlabeled_pop s acc pid profile rest hbf hap]
        intro x hx
        exact (assignPending_some s acc.2 profile rest hap).2.2 x hx
      | none =>
        rw [assignStep_unlabeled_empty s acc pid rest hbf hap]
        intro x hx
        have := assignPending_sub s acc.2
        rw [hap] at this
        exact this x hx
  | some profile =>
    by_cases hs2 : profile ∈ s
    · rw [assignStep_labeled_stop s acc pid profile hs2]
      exact fun x hx => hx
    · rcases hl : lookupK profile acc.1 with _ | old
      · rw [assignStep_labeled_new s acc pid profile hs2 hl]
        exact fun x hx => hx
      · by_cases hold : old = pid
        · rw [assignStep_labeled_same s acc pid profile hs2 (hold ▸ hl)]
          exact fun x hx => hx
        · rw [assignStep_labeled_move s acc pid profile old hs2 hl hold]
          exact fun x hx => hx

theorem assignStep_lookup_preserve (s : List Nat) (acc : List (Nat × Nat) × List Nat)
    (det : Nat × Option Nat) (p : Nat)
    (hlab : det.2 = some p → p ∈ s)
    (hpend : p ∈ acc.2 → p ∈ s) :
    lookupK p (assignStep s acc det).1 = lookupK p acc.1 := by
  obtain ⟨pid, lbl⟩ := det
  cases lbl with
  | none =>
    by_cases hb : acc.1.any (fun e => e.2 == pid) = true
    · rw [assignStep_unlabeled_bound s acc pid hb]
    · have hbf : acc.1.any (fun e => e.2 == pid) = false :=
        Bool.not_eq_true _ ▸ eq_false_of_ne_true hb
      rcases hap : assignPending s acc.2 with ⟨opt, rest⟩
      cases opt with
      | some profile =>
        rw [assignStep_unlabeled_pop s acc pid profile rest hbf hap]
        obtain ⟨hq1, hq2, _⟩ := assignPending_some s acc.2 profile rest hap
        have hqp : p ≠ profile := by
          intro hx
          exact hq1 (hx ▸ hpend (hx ▸ hq2))
        exact lookupK_insertKey_ne acc.1 profile pid p hqp
      | none =>
        rw [assignStep_unlabeled_empty s acc pid rest hbf hap]
  | some profile =>
    by_cases hs2 : profile ∈ s
    · rw [assignStep_labeled_stop s acc pid profile hs2]
    · have hqp : p ≠ profile := by
        intro hx
        subst hx
        exact hs2 (hlab rfl)
      rcases hl : lookupK profile acc.1 with _ | old
      · rw [assignStep_labeled_new s acc pid profile hs2 hl]
        exact lookupK_insertKey_ne acc.1 profile pid p hqp
      · by_cases hold : old = pid
        · rw [assignStep_labeled_same s acc pid profile hs2 (hold ▸ hl)]
        · rw [assignStep_labeled_move s acc pid profile old hs2 hl hold]
          exact lookupK_insertKey_ne acc.1 profile pid p hqp

theorem assignStep_isSome (s : List Nat) (acc : List (Nat × Nat) × List Nat)
    (det : Nat × Option Nat) (p : Nat) (h : (lookupK p acc.1).isSome = true) :
    (lookupK p (assignStep s acc det).1).isSome = true := by
  obtain ⟨pid, lbl⟩ := det
  cases lbl with
  | none =>
    by_cases hb : acc.1.any (fun e => e.2 == pid) = true
    · rw [assignStep_unlabeled_bound s acc pid hb]; exact h
    · have hbf : acc.1.any (fun e => e.2 == pid) = false :=
        Bool.not_eq_true _ ▸ eq_false_of_ne_true hb
      rcases hap : assignPending s acc.2 with ⟨opt, rest⟩
      cases opt with
      | some profile =>
        rw [assignStep_unlabeled_pop s acc pid profile rest hbf hap]
        by_cases hqp : p = profile
        · subst hqp
          rw [lookupK_insertKey_self acc.1 p pid]
          rfl
        · rw [lookupK_insertKey_ne acc.1 profile pid p hqp]
          exact h
      | none =>
        rw [assignStep_unlabeled_empty s acc pid rest hbf hap]
        exact h
  | some profile =>
    by_cases hs2 : profile ∈ s
    · rw [assignStep_labeled_stop s acc pid profile hs2]; exact h
    · rcases hl : lookupK profile acc.1 with _ | old
      · rw [assignStep_labeled_new s acc pid profile hs2 hl]
        by_cases hqp : p = profile
        · subst hqp
          rw [lookupK_insertKey_self acc.1 p pid]
          rfl
        · rw [lookupK_insertKey_ne acc.1 profile pid p hqp]
          exact h
      · by_cases hold : old = pid
        · rw [assignStep_labeled_same s acc pid profile hs2 (hold ▸ hl)]
          exact h
        · rw [assignStep_labeled_move s acc pid profile old hs2 hl hold]
          by_cases hqp : p = profile
          · subst hqp
            rw [lookupK_insertKey_self acc.1 p pid]
            rfl
          · rw [lookupK_insertKey_ne acc.1 profile pid p hqp]
            exact h

theorem assignStep_nodup (s : List Nat) (acc : List (Nat × Nat) × List Nat)
    (det : Nat × Option Nat) (h : keysNodup acc.1) :
    keysNodup (assignStep s acc det).1 := by
  obtain ⟨pid, lbl⟩ := det
  cases lbl with
  | none =>
    by_cases hb : acc.1.any (fun e => e.2 == pid) = true
    · rw [assignStep_unlabeled_bound s acc pid hb]; exact h
    · have hbf : acc.1.any (fun e => e.2 == pid) = false :=
        Bool.not_eq_true _ ▸ eq_false_of_ne_true hb
      rcases hap : assignPending s acc.2 with ⟨opt, rest⟩
      cases opt with
      | some profile =>
        rw [assignStep_unlabeled_pop s acc pid profile rest hbf hap]
        exact keysNodup_insertKey acc.1 profile pid h
      | none =>
        rw [assignStep_unlabeled_empty s acc pid rest hbf hap]
        exact h
  | some profile =>
    by_cases hs2 : profile ∈ s
    · rw [assignStep_labeled_stop s acc pid profile hs2]; exact h
    · rcases hl : lookupK profile acc.1 with _ | old
      · rw [assignStep_labeled_new s acc pid profile hs2 hl]
        exact keysNodup_insertKey acc.1 profile pid h
      · by_cases hold : old = pid
        · rw [assignStep_labeled_same s acc pid profile hs2 (hold ▸ hl)]
          exact h
        · rw [assignStep_labeled_move s acc pid profile old hs2 hl hold]
          exact keysNodup_insertKey acc.1 profile pid h

theorem assignFold_pending_sub (s : List Nat) (d : List (Nat × Option Nat)) :
    ∀ (acc : List (Nat × Nat) × List Nat),
      ∀ x ∈ (d.foldl (assignStep s) acc).2, x ∈ acc.2 := by
  induction d with
  | nil => exact fun acc x hx => hx
  | cons det rest ih =>
    intro acc x hx
    simp only [List.foldl] at hx
    exact assignStep_pending_sub s acc det x (ih (assignStep s acc det) x hx)

theorem assignFold_lookup_preserve (s : List Nat) (d : List (Nat × Option Nat)) (p : Nat) :
    ∀ (acc : List (Nat × Nat) × List Nat),
      (∀ x ∈ d, x.2 = some p → p ∈ s) →
      (p ∈ acc.2 → p ∈ s) →
      lookupK p (d.foldl (assignStep s) acc).1 = lookupK p acc.1 := by
  induction d with
  | nil => exact fun acc _ _ => rfl
  | cons det rest ih =>
    intro acc hlab hpend
    simp only [List.foldl]
    have hstep := assignStep_lookup_preserve s acc det p
      (fun hx => hlab det (List.mem_cons_self det rest) hx) hpend
    have hpend2 : p ∈ (assignStep s acc det).2 → p ∈ s :=
      fun hx => hpend (assignStep_pending_sub s acc det p hx)
    exact (ih (assignStep s acc det)
      (fun x hx => hlab x (List.mem_cons_of_mem det hx)) hpend2).trans hstep

theorem assignFold_isSome (s : List Nat) (d : List (Nat × Option Nat)) (p : Nat) :
    ∀ (acc : List (Nat × Nat) × List Nat),
      (lookupK p acc.1).isSome = true →
      (lookupK p (d.foldl (assignStep s) acc).1).isSome = true := by
  induction d with
  | nil => exact fun acc h => h
  | cons det rest ih =>
    intro acc h
    simp only [List.foldl]
    exact ih (assignStep s acc det) (assignStep_isSome s acc det p h)

theorem assignFold_nodup (s : List Nat) (d : List (Nat × Option Nat)) :
    ∀ (acc : List (Nat × Nat) × List Nat),
      keysNodup acc.1 → keysNodup (d.foldl (assignStep s) acc).1 := by
  induction d with
  | nil => exact fun acc h => h
  | cons det rest ih =>
    intro acc h
    simp only [List.foldl]
    exact ih (assignStep s acc det) (assignStep_nodup s acc det h)

theorem keysNodup_evictPass (s dp : List Nat) (stored missed : List (Nat × Nat))
    (h : keysNodup stored) : keysNodup (evictPass s dp stored missed).1 := by
  simp only [evictPass]
  exact keysNodup_eraseFold _ _ h

theorem evictPass_at (s dp : List Nat) (stored missed : List (Nat × Nat)) (p pid : Nat)
    (hnd : keysNodup stored)
    (hb : lookupK p stored = some pid)
    (hs : p ∉ s) :
    (pid ∉ dp → lookupK p missed = none →
       lookupK p (evictPass s dp stored missed).1 = some pid ∧
       lookupK p (evictPass s dp stored missed).2 = some 1) ∧
    (pid ∉ dp → lookupK p missed = some 1 →
       lookupK p (evictPass s dp stored missed).1 = none ∧
       lookupK p (evictPass s dp stored missed).2 = none) ∧
    (pid ∈ dp →
       lookupK p (evictPass s dp stored missed).1 = some pid ∧
       lookupK p (evictPass s dp stored missed).2 = none) := by
  obtain ⟨L1, L2, heq, hk1, hk2⟩ := lookupK_some_decomp stored p pid hnd hb
  have hL1 : ∀ e ∈ L1, e.1 = p → p ∈ s := by
    intro e he hep
    exact absurd (hep ▸ List.mem_map_of_mem Prod.fst he) hk1
  have hL2 : ∀ e ∈ L2, e.1 = p → p ∈ s := by
    intro e he hep
    exact absurd (hep ▸ List.mem_map_of_mem Prod.fst he) hk2
  obtain ⟨hm1, htr1⟩ := evictFold_preserve s dp p L1 missed [] hL1
  have hfold : stored.foldl (evictStep s dp) (missed, []) =
      L2.foldl (evictStep s dp)
        (evictStep s dp (L1.foldl (evictStep s dp) (missed, [])) (p, pid)) := by
    rw [heq, List.foldl_append, List.foldl_cons]
  simp only [evictPass, hfold]
  set a1 := L1.foldl (evictStep s dp) (missed, []) with ha1
  have hnotr1 : p ∉ a1.2 := fun hx => by simp at htr1; exact htr1 hx
  refine ⟨?_, ?_, ?_⟩
  · intro hpd hmn
    have hcur : lookupK p a1.1 = none := hm1.trans hmn
    have hstep : evictStep s dp a1 (p, pid) = (insertKey a1.1 p 1, a1.2) := by
      rw [evictStep_miss s dp a1 (p, pid) hs hpd]
      simp [hcur]
    rw [hstep]
    obtain ⟨hm2, htr2⟩ := evictFold_preserve s dp p L2 (insertKey a1.1 p 1) a1.2 hL2
    have hnotr2 : p ∉ (L2.foldl (evictStep s dp) (insertKey a1.1 p 1, a1.2)).2 :=
      fun hx => hnotr1 (htr2.mp hx)
    constructor
    · rw [lookupK_eraseFold_of_not_mem _ stored p hnotr2, hb]
    · rw [lookupK_eraseFold_of_not_mem _ _ p hnotr2, hm2,
        lookupK_insertKey_self a1.1 p 1]
  · intro hpd hm1s
    have hcur : lookupK p a1.1 = some 1 := hm1.trans hm1s
    have hstep : evictStep s dp a1 (p, pid) = (insertKey a1.1 p 2, a1.2 ++ [p]) := by
      rw [evictStep_miss s dp a1 (p, pid) hs hpd]
      simp [hcur]
    rw [hstep]
    obtain ⟨hm2, htr2⟩ := evictFold_preserve s dp p L2 (insertKey a1.1 p 2) (a1.2 ++ [p]) hL2
    have hintr2 : p ∈ (L2.foldl (evictStep s dp) (insertKey a1.1 p 2, a1.2 ++ [p])).2 :=
      htr2.mpr (by simp)
    constructor
    · exact lookupK_eraseFold_of_mem _ stored p hintr2
    · exact lookupK_eraseFold_of_mem _ _ p hintr2
  · intro hpd
    have hstep : evictStep s dp a1 (p, pid) = (eraseKey a1.1 p, a1.2) :=
      evictStep_det s dp a1 (p, pid) hs hpd
    rw [hstep]
    obtain ⟨hm2, htr2⟩ := evictFold_preserve s dp p L2 (eraseKey a1.1 p) a1.2 hL2
    have hnotr2 : p ∉ (L2.foldl (evictStep s dp) (eraseKey a1.1 p, a1.2)).2 :=
      fun hx => hnotr1 (htr2.mp hx)
    constructor
    · rw [lookupK_eraseFold_of_not_mem _ stored p hnotr2, hb]
    · rw [lookupK_eraseFold_of_not_mem _ _ p hnotr2, hm2,
        lookupK_eraseKey_self a1.1 p]

/-! ### Monitor-cycle state lemmas -/

theorem monitorCycle_stopping (d : List (Nat × Option Nat)) (st : MState) :
    (monitorCycle d st).stopping = st.stopping := rfl

theorem monitorCycle_pending_sub (d : List (Nat × Option Nat)) (st : MState) :
    ∀ q ∈ (monitorCycle d st).pending, q ∈ st.pending := by
  intro q hq
  exact assignFold_pending_sub st.stopping d _ q hq

theorem monitorCycle_nodup (d : List (Nat × Option Nat)) (st : MState)
    (h : keysNodup st.stored) : keysNodup (monitorCycle d st).stored := by
  simp only [monitorCycle]
  exact assignFold_nodup st.stopping d _
    (keysNodup_evictPass st.stopping (d.map Prod.fst) st.stored st.missed h)

theorem cycleState_missed (st : MState) (p pid : Nat) (d : List (Nat × Option Nat))
    (hnd : keysNodup st.stored)
    (hb : lookupK p st.stored = some pid)
    (hs : p ∉ st.stopping)
    (hq : p ∉ st.pending)
    (hl : ∀ x ∈ d, x.2 ≠ some p)
    (ha : pid ∉ d.map Prod.fst) :
    (lookupK p st.missed = none →
       lookupK p (monitorCycle d st).stored = some pid ∧
       lookupK p (monitorCycle d st).missed = some 1) ∧
    (lookupK p st.missed = some 1 →
       lookupK p (monitorCycle d st).stored = none ∧
       lookupK p (monitorCycle d st).missed = none) := by
  have hev := evictPass_at st.stopping (d.map Prod.fst) st.stored st.missed p pid hnd hb hs
  have hpres := assignFold_lookup_preserve st.stopping d p
    (evictPass st.stopping (d.map Prod.fst) st.stored st.missed |>.1, st.pending)
    (fun x hx hx2 => absurd hx2 (hl x hx))
    (fun hx => absurd hx hq)
  simp only [monitorCycle]
  constructor
  · intro hmn
    obtain ⟨h1, h2⟩ := hev.1 ha hmn
    exact ⟨hpres.trans h1, h2⟩
  · intro hm1s
    obtain ⟨h1, h2⟩ := hev.2.1 ha hm1s
    exact ⟨hpres.trans h1, h2⟩

theorem cycleState_seen (st : MState) (p pid : Nat) (d : List (Nat × Option Nat))
    (hnd : keysNodup st.stored)
    (hb : lookupK p st.stored = some pid)
    (hs : p ∉ st.stopping)
    (ha : pid ∈ d.map Prod.fst) :
    (lookupK p (monitorCycle d st).stored).isSome = true ∧
    lookupK p (monitorCycle d st).missed = none := by
  have hev := evictPass_at st.stopping (d.map Prod.fst) st.stored st.missed p pid hnd hb hs
  obtain ⟨h1, h2⟩ := hev.2.2 ha
  simp only [monitorCycle]
  refine ⟨?_, h2⟩
  apply assignFold_isSome st.stopping d p
  rw [h1]
  rfl

theorem evictPass_preserve_stopping (s dp : List Nat) (stored missed : List (Nat × Nat))
    (p : Nat) (h : p ∈ s) :
    lookupK p (evictPass s dp stored missed).1 = lookupK p stored ∧
    lookupK p (evictPass s dp stored missed).2 = lookupK p missed := by
  obtain ⟨hm1, htr1⟩ := evictFold_preserve s dp p stored missed [] (fun e _ _ => h)
  simp only [evictPass]
  have hno : p ∉ (stored.foldl (evictStep s dp) (missed, [])).2 := by
    intro hx
    simp at htr1
    exact htr1 hx
  exact ⟨lookupK_eraseFold_of_not_mem _ stored p hno,
         (lookupK_eraseFold_of_not_mem _ _ p hno).trans hm1⟩

/-! ### Stop / Launch frame helpers -/

theorem stopScan_state (env : StopEnv) (profile : Nat) (pending1 stopping1 : List Nat)
    (st : MState) :
    (stopScan env profile pending1 stopping1 st).2.missed = st.missed ∧
    (stopScan env profile pending1 stopping1 st).2.pending = pending1 ∧
    (stopScan env profile pending1 stopping1 st).2.stopping = stopping1 := by
  unfold stopScan
  split
  · split <;> exact ⟨rfl, rfl, rfl⟩
  · exact ⟨rfl, rfl, rfl⟩

theorem stop_vrchat_state (env : StopEnv) (profile : Nat) (st : MState) :
    (stop_vrchat env profile st).2.missed = st.missed ∧
    (stop_vrchat env profile st).2.pending = st.pending.filter (fun p => p != profile) ∧
    (stop_vrchat env profile st).2.stopping = st.stopping.filter (fun p => p != profile) := by
  unfold stop_vrchat
  split
  · split
    · split
      · split <;> exact ⟨rfl, rfl, rfl⟩
      · exact stopScan_state env profile _ _ st
    · exact stopScan_state env profile _ _ st
  · exact stopScan_state env profile _ _ st

theorem launch_vrchat_state (env : LaunchEnv) (profile : Nat) (st : MState) :
    (launch_vrchat env profile st).2.missed = st.missed ∧
    (launch_vrchat env profile st).2.stored = st.stored ∧
    (launch_vrchat env profile st).2.stopping = st.stopping := by
  unfold launch_vrchat launchSpawn
  split
  · split
    · exact ⟨rfl, rfl, rfl⟩
    · split <;> exact ⟨rfl, rfl, rfl⟩
  · split <;> exact ⟨rfl, rfl, rfl⟩

/-! ### Claim theorems -/

/-- C1: for every profile in the Stop Suppression Set at the start of a monitor
cycle, that cycle neither creates a binding for the profile, nor updates its
bound pid, nor evicts its Binding Table entry, nor changes its missed-detection
counter — regardless of which labeled or unlabeled detections occur in that
cycle.  Stated as: the cycle preserves both the profile's binding-table lookup
and its missed-counter lookup. -/
theorem C1_suppression_fencing (st : MState) (detected : List (Nat × Option Nat))
    (p : Nat) (h : p ∈ st.stopping) :
    lookupK p (monitorCycle detected st).stored = lookupK p st.stored ∧
    lookupK p (monitorCycle detected st).missed = lookupK p st.missed := by
  have hev := evictPass_preserve_stopping st.stopping (detected.map Prod.fst)
    st.stored st.missed p h
  have hpres := assignFold_lookup_preserve st.stopping detected p
    ((evictPass st.stopping (detected.map Prod.fst) st.stored st.missed).1, st.pending)
    (fun _ _ _ => h) (fun _ => h)
  simp only [monitorCycle]
  exact ⟨hpres.trans hev.1, hev.2⟩

/-- Witness for C1 at a concrete suppressed profile: profile 7 is suppressed,
bound to pid 50; the cycle sees a labeled detection for 7 with a new pid and an
unlabeled detection, yet 7's binding and counter are untouched. -/
theorem C1_suppression_fencing_witness :
    7 ∈ (MState.mk [(7, 50)] [9] [] [7]).stopping ∧
    (lookupK 7 (monitorCycle [(60, some 7), (70, none)]
        (MState.mk [(7, 50)] [9] [] [7])).stored
      = lookupK 7 (MState.mk [(7, 50)] [9] [] [7]).stored ∧
     lookupK 7 (monitorCycle [(60, some 7), (70, none)]
        (MState.mk [(7, 50)] [9] [] [7])).missed
      = lookupK 7 (MState.mk [(7, 50)] [9] [] [7]).missed) :=
  ⟨by decide, C1_suppression_fencing (MState.mk [(7, 50)] [9] [] [7])
    [(60, some 7), (70, none)] 7 (by decide)⟩

/-- C8: if the binding table holds a pid for the profile and the directory
reports it alive, Launch fails with `AlreadyRunning` carrying that pid, spawns
nothing, and leaves the whole state unchanged. -/
theorem C8_already_running (env : LaunchEnv) (profile pid : Nat) (st : MState)
    (hb : lookupK profile st.stored = some pid) (ha : env.alive pid = true) :
    (launch_vrchat env profile st).1.success = false ∧
    (launch_vrchat env profile st).1.process_id = some pid ∧
    (launch_vrchat env profile st).2 = st := by
  unfold launch_vrchat
  rw [hb]
  simp [ha]

/-- Witness for C8: profile 3 bound to live pid 42. -/
theorem C8_already_running_witness :
    lookupK 3 (MState.mk [(3, 42)] [] [] []).stored = some 42 ∧
    (fun env : LaunchEnv => env.alive 42 = true ∧
      (launch_vrchat env 3 (MState.mk [(3, 42)] [] [] [])).1.success = false ∧
      (launch_vrchat env 3 (MState.mk [(3, 42)] [] [] [])).1.process_id = some 42 ∧
      (launch_vrchat env 3 (MState.mk [(3, 42)] [] [] [])).2
        = MState.mk [(3, 42)] [] [] [])
      (LaunchEnv.mk (fun _ => true) (Except.ok 77)) := by
  refine ⟨by decide, rfl, ?_⟩
  exact C8_already_running (LaunchEnv.mk (fun _ => true) (Except.ok 77)) 3 42
    (MState.mk [(3, 42)] [] [] []) (by decide) rfl

/-- C9: on spawn success (and no live existing binding) Launch leaves the
binding table, counters and suppression set unchanged; its only state change is
appending the profile to the back of the pending queue; the result surfaces the
launcher pid with the not-yet-bound flag set. -/
theorem C9_spawn_success_frame (env : LaunchEnv) (profile lp : Nat) (st : MState)
    (hspawn : env.spawn = Except.ok lp)
    (hnr : ∀ pid, lookupK profile st.stored = some pid → env.alive pid = false) :
    (launch_vrchat env profile st).2.stored = st.stored ∧
    (launch_vrchat env profile st).2.missed = st.missed ∧
    (launch_vrchat env profile st).2.stopping = st.stopping ∧
    (launch_vrchat env profile st).2.pending = st.pending ++ [profile] ∧
    (launch_vrchat env profile st).1.success = true ∧
    (launch_vrchat env profile st).1.process_id = some lp ∧
    (launch_vrchat env profile st).1.waiting_for_main_process = some true := by
  unfold launch_vrchat
  rcases hb : lookupK profile st.stored with _ | pid
  · unfold launchSpawn
    rw [hspawn]
    simp
  · have hal : env.alive pid = false := hnr pid hb
    unfold launchSpawn
    rw [hspawn]
    simp [hal]

/-- Witness for C9: profile 5 launched from the empty state with launcher
pid 77. -/
theorem C9_spawn_success_frame_witness :
    (LaunchEnv.mk (fun _ => false) (Except.ok 77)).spawn = Except.ok 77 ∧
    (∀ pid, lookupK 5 (MState.mk [] [] [] []).stored = some pid →
      (LaunchEnv.mk (fun _ => false) (Except.ok 77)).alive pid = false) ∧
    (launch_vrchat (LaunchEnv.mk (fun _ => false) (Except.ok 77)) 5
      (MState.mk [] [] [] [])).2.pending = [5] := by
  refine ⟨rfl, fun pid h => by simp [lookupK] at h, ?_⟩
  have h := C9_spawn_success_frame (LaunchEnv.mk (fun _ => false) (Except.ok 77)) 5 77
    (MState.mk [] [] [] []) rfl (fun pid h => by simp [lookupK] at h)
  exact h.2.2.2.1

/-- C10: `stop_vrchat` never touches the missed-detection counters on any of
its paths, and neither does `launch_vrchat`, so a nonzero counter survives a
stop-then-relaunch of the same profile. -/
theorem C10_stop_preserves_missed (env : StopEnv) (envL : LaunchEnv)
    (profile profileL : Nat) (st stL : MState) :
    (stop_vrchat env profile st).2.missed = st.missed ∧
    (launch_vrchat envL profileL stL).2.missed = stL.missed :=
  ⟨(stop_vrchat_state env profile st).1, (launch_vrchat_state envL profileL stL).1⟩

theorem launch_pending_append (env : LaunchEnv) (profile lp : Nat) (st : MState)
    (hspawn : env.spawn = Except.ok lp)
    (hnb : lookupK profile st.stored = none) :
    (launch_vrchat env profile st).2.pending = st.pending ++ [profile] := by
  unfold launch_vrchat launchSpawn
  rw [hnb, hspawn]

/-- C5 counterexample: from the empty state, two Launches of profile 5 (both
spawns succeed, nothing alive, no monitor cycle in between) leave the Pending
Queue holding profile 5 twice, refuting "a profile occurs at most once". -/
theorem C5_counterexample :
    ((launch_vrchat (LaunchEnv.mk (fun _ => false) (Except.ok 10)) 5
        (launch_vrchat (LaunchEnv.mk (fun _ => false) (Except.ok 10)) 5
          (MState.mk [] [] [] [])).2).2).pending = [5, 5] ∧
    ((launch_vrchat (LaunchEnv.mk (fun _ => false) (Except.ok 10)) 5
        (launch_vrchat (LaunchEnv.mk (fun _ => false) (Except.ok 10)) 5
          (MState.mk [] [] [] [])).2).2).pending.count 5 = 2 := by
  decide

/-- C5 amended: the Pending Queue may contain a profile more than once —
Launch appends unconditionally, so two Launches of the same unbound profile
before its worker is bound leave two occurrences in the queue; Stop removes
every occurrence of the profile from the queue. -/
theorem C5_pending_duplicates (envL : LaunchEnv) (envS : StopEnv)
    (profile lp : Nat) (st st2 : MState)
    (hspawn : envL.spawn = Except.ok lp)
    (hnb : lookupK profile st.stored = none) :
    ((launch_vrchat envL profile (launch_vrchat envL profile st).2).2).pending
      = st.pending ++ [profile, profile] ∧
    (stop_vrchat envS profile st2).2.pending
      = st2.pending.filter (fun q => q != profile) := by
  constructor
  · have hst1 : (launch_vrchat envL profile st).2.stored = st.stored :=
      (launch_vrchat_state envL profile st).2.1
    have hp1 := launch_pending_append envL profile lp st hspawn hnb
    have hnb2 : lookupK profile (launch_vrchat envL profile st).2.stored = none := by
      rw [hst1]; exact hnb
    have hp2 := launch_pending_append envL profile lp _ hspawn hnb2
    rw [hp2, hp1, List.append_assoc]
    rfl
  · exact (stop_vrchat_state envS profile st2).2.1

/-- Witness for the amended C5 at profile 5: double launch from the empty
state yields the queue `[5, 5]`, and a Stop on a queue `[5, 9, 5]` removes both
occurrences of 5. -/
theorem C5_pending_duplicates_witness :
    (LaunchEnv.mk (fun _ => false) (Except.ok 10)).spawn = Except.ok 10 ∧
    lookupK 5 (MState.mk [] [] [] []).stored = none ∧
    ((launch_vrchat (LaunchEnv.mk (fun _ => false) (Except.ok 10)) 5
        (launch_vrchat (LaunchEnv.mk (fun _ => false) (Except.ok 10)) 5
          (MState.mk [] [] [] [])).2).2).pending = [5, 5] ∧
    (stop_vrchat (StopEnv.mk [] (fun _ => [])) 5
      (MState.mk [] [5, 9, 5] [] [])).2.pending = [9] := by
  refine ⟨rfl, by decide, ?_, ?_⟩
  · have h := C5_pending_duplicates (LaunchEnv.mk (fun _ => false) (Except.ok 10))
      (StopEnv.mk [] (fun _ => [])) 5 10 (MState.mk [] [] [] [])
      (MState.mk [] [5, 9, 5] [] []) rfl (by decide)
    simpa using h.1
  · have h := C5_pending_duplicates (LaunchEnv.mk (fun _ => false) (Except.ok 10))
      (StopEnv.mk [] (fun _ => [])) 5 10 (MState.mk [] [] [] [])
      (MState.mk [] [5, 9, 5] [] []) rfl (by decide)
    simpa using h.2

/-- C4 counterexample: with no stored pid and a directory whose only entry has
command line `vrchat --profile=10`, `stop_vrchat 1` selects pid 100 — a process
whose command line carries profile id 10, not 1 — because the scan matches the
substring `--profile=1`.  This refutes "the scan never selects a process whose
command line carries a different profile id". -/
theorem C4_counterexample :
    (stop_vrchat (StopEnv.mk [ProcInfo.mk 100 ("x") ("") ("vrchat --profile=10")]
        (fun _ => [true])) 1 (MState.mk [] [] [] [])).1.process_id = some 100 ∧
    (stop_vrchat (StopEnv.mk [ProcInfo.mk 100 ("x") ("") ("vrchat --profile=10")]
        (fun _ => [true])) 1 (MState.mk [] [] [] [])).1.success = true ∧
    extract_profile_from_cmd (("vrchat --profile=10").toList) = some 10 := by
  decide

/-- C4 amended: in Stop's fallback resolution the chosen pid is one whose
command line contains `--profile=<id>` as a substring (not as an exact token),
so Stop(N) may select a process carrying a different profile id whose decimal
text extends N, such as `--profile=10` when 1 was requested; when there is no
stored pid, the pid surfaced by Stop is exactly the scan's result. -/
theorem C4_scan_substring :
    (∀ (dir : List ProcInfo) (profile pid : Nat),
      scanForProfile dir profile = some pid →
      ∃ pr ∈ dir, pr.pid = pid ∧
        strContainsAux (("--profile=" ++ toString profile).toList) pr.cmd.toList = true) ∧
    (∀ (env : StopEnv) (profile : Nat) (st : MState),
      lookupK profile st.stored = none →
      (stop_vrchat env profile st).1.process_id = scanForProfile env.dir profile) := by
  constructor
  · intro dir profile pid h
    unfold scanForProfile at h
    rcases hf : dir.find? (fun pr =>
        strContainsAux (("--profile=" ++ toString profile).toList) pr.cmd.toList) with _ | pr
    · rw [hf] at h
      simp at h
    · rw [hf] at h
      simp at h
      refine ⟨pr, List.mem_of_find?_eq_some hf, h, ?_⟩
      have hp := List.find?_some hf
      simpa using hp
  · intro env profile st h
    unfold stop_vrchat
    rw [h]
    unfold stopScan
    rcases hs : scanForProfile env.dir profile with _ | pid
    · rfl
    · by_cases hk : kill_and_wait (env.deadChecks pid) <;> simp [hk]

/-- Witness for the amended C4: the scan over the `--profile=10` directory
resolves pid 100, and that entry indeed contains the substring `--profile=1`. -/
theorem C4_scan_substring_witness :
    scanForProfile [ProcInfo.mk 100 ("x") ("") ("vrchat --profile=10")] 1 = some 100 ∧
    (∃ pr ∈ [ProcInfo.mk 100 ("x") ("") ("vrchat --profile=10")], pr.pid = 100 ∧
      strContainsAux (("--profile=" ++ toString 1).toList) pr.cmd.toList = true) :=
  ⟨by decide, C4_scan_substring.1 [ProcInfo.mk 100 ("x") ("") ("vrchat --profile=10")]
    1 100 (by decide)⟩

theorem killLoop_take (n : Nat) (l : List Bool) : killLoop n l = killLoop n (l.take n) := by
  induction n generalizing l with
  | zero => rfl
  | succ n ih =>
    cases l with
    | nil => rfl
    | cons d rest =>
      simp only [List.take, killLoop]
      by_cases hd : d = true <;> simp [hd, ih rest]

theorem stop_vrchat_eq_scan_of_none (env : StopEnv) (profile : Nat) (st : MState)
    (hl : lookupK profile st.stored = none) :
    stop_vrchat env profile st =
      stopScan env profile (st.pending.filter (fun p => p != profile))
        (st.stopping.filter (fun p => p != profile)) st := by
  simp only [stop_vrchat, hl]

theorem stop_vrchat_eq_scan_of_gone (env : StopEnv) (profile : Nat) (st : MState)
    (pid : Nat) (hl : lookupK profile st.stored = some pid)
    (hf : env.dir.find? (fun pr => pr.pid = pid) = none) :
    stop_vrchat env profile st =
      stopScan env profile (st.pending.filter (fun p => p != profile))
        (st.stopping.filter (fun p => p != profile)) st := by
  simp only [stop_vrchat, hl, hf]

theorem stop_vrchat_eq_scan_of_notvr (env : StopEnv) (profile : Nat) (st : MState)
    (pid : Nat) (pr : ProcInfo) (hl : lookupK profile st.stored = some pid)
    (hf : env.dir.find? (fun x => x.pid = pid) = some pr)
    (hlv : looksLikeVRChat pr = false) :
    stop_vrchat env profile st =
      stopScan env profile (st.pending.filter (fun p => p != profile))
        (st.stopping.filter (fun p => p != profile)) st := by
  simp only [stop_vrchat, hl, hf, hlv, Bool.false_eq_true, if_false]

theorem stop_vrchat_stored_path (env : StopEnv) (profile : Nat) (st : MState)
    (pid : Nat) (pr : ProcInfo) (hl : lookupK profile st.stored = some pid)
    (hf : env.dir.find? (fun x => x.pid = pid) = some pr)
    (hlv : looksLikeVRChat pr = true) :
    (stop_vrchat env profile st).1.success = kill_and_wait (env.deadChecks pid) ∧
    (stop_vrchat env profile st).1.process_id = some pid ∧
    (stop_vrchat env profile st).2.stored =
      (if kill_and_wait (env.deadChecks pid) then eraseKey st.stored profile
       else st.stored) := by
  simp only [stop_vrchat, hl, hf, hlv, if_true]
  by_cases hk : kill_and_wait (env.deadChecks pid) <;> simp [hk]

theorem stopScan_proj (env : StopEnv) (profile : Nat) (pending1 stopping1 : List Nat)
    (st : MState) (pid : Nat) (hs : scanForProfile env.dir profile = some pid) :
    (stopScan env profile pending1 stopping1 st).1.success
        = kill_and_wait (env.deadChecks pid) ∧
    (stopScan env profile pending1 stopping1 st).1.process_id = some pid ∧
    (stopScan env profile pending1 stopping1 st).2.stored =
      (if kill_and_wait (env.deadChecks pid) then eraseKey st.stored profile
       else st.stored) := by
  unfold stopScan
  rw [hs]
  by_cases hk : kill_and_wait (env.deadChecks pid) <;> simp [hk]

/-- C7: for every Stop call that resolves a pid, the terminate signal is
followed by at most five directory checks (the wait's result only depends on
the first five observations); if the pid disappears within those checks, Stop
removes the profile's binding-table entry and returns success carrying that
pid; if not, Stop returns a failure carrying that pid and the binding table is
left unchanged, so a retry can target the same pid. -/
theorem C7_stop_kill_window (env : StopEnv) (profile : Nat) (st : MState) (pid : Nat)
    (hres : resolveStopPid env.dir st.stored profile = some pid) :
    (∀ checks : List Bool, kill_and_wait checks = kill_and_wait (checks.take 5)) ∧
    (kill_and_wait (env.deadChecks pid) = true →
       (stop_vrchat env profile st).1.success = true ∧
       (stop_vrchat env profile st).1.process_id = some pid ∧
       (stop_vrchat env profile st).2.stored = eraseKey st.stored profile) ∧
    (kill_and_wait (env.deadChecks pid) = false →
       (stop_vrchat env profile st).1.success = false ∧
       (stop_vrchat env profile st).1.process_id = some pid ∧
       (stop_vrchat env profile st).2.stored = st.stored) := by
  have hproj : (stop_vrchat env profile st).1.success
        = kill_and_wait (env.deadChecks pid) ∧
      (stop_vrchat env profile st).1.process_id = some pid ∧
      (stop_vrchat env profile st).2.stored =
        (if kill_and_wait (env.deadChecks pid) then eraseKey st.stored profile
         else st.stored) := by
    unfold resolveStopPid at hres
    rcases hl : lookupK profile st.stored with _ | pid0
    · simp only [hl] at hres
      rw [stop_vrchat_eq_scan_of_none env profile st hl]
      exact stopScan_proj env profile _ _ st pid hres
    · simp only [hl] at hres
      rcases hf : env.dir.find? (fun pr => pr.pid = pid0) with _ | pr
      · simp only [hf] at hres
        rw [stop_vrchat_eq_scan_of_gone env profile st pid0 hl hf]
        exact stopScan_proj env profile _ _ st pid hres
      · simp only [hf] at hres
        by_cases hlv : looksLikeVRChat pr = true
        · rw [if_pos hlv] at hres
          injection hres with hres2
          subst hres2
          exact stop_vrchat_stored_path env profile st pid0 pr hl hf hlv
        · rw [if_neg hlv] at hres
          rw [stop_vrchat_eq_scan_of_notvr env profile st pid0 pr hl hf
            (Bool.not_eq_true _ ▸ eq_false_of_ne_true hlv)]
          exact stopScan_proj env profile _ _ st pid hres
  obtain ⟨h1, h2, h3⟩ := hproj
  refine ⟨fun checks => killLoop_take 5 checks, fun hk => ?_, fun hk => ?_⟩
  · rw [hk] at h1 h3
    simp only [if_pos rfl] at h3
    exact ⟨h1, h2, by simpa using h3⟩
  · rw [hk] at h1 h3
    simp only [Bool.false_eq_true, if_false] at h3
    exact ⟨h1, h2, h3⟩

/-- Witness for C7: profile 9 bound to pid 100, whose directory entry is named
vrchat.exe; the pid disappears at the first check, so Stop succeeds and erases
the entry. -/
theorem C7_stop_kill_window_witness :
    resolveStopPid [ProcInfo.mk 100 ("vrchat.exe") ("") ("")] [(9, 100)] 9 = some 100 ∧
    kill_and_wait ((fun _ : Nat => [true]) 100) = true ∧
    (stop_vrchat (StopEnv.mk [ProcInfo.mk 100 ("vrchat.exe") ("") ("")]
        (fun _ => [true])) 9 (MState.mk [(9, 100)] [] [] [])).1.success = true ∧
    (stop_vrchat (StopEnv.mk [ProcInfo.mk 100 ("vrchat.exe") ("") ("")]
        (fun _ => [true])) 9 (MState.mk [(9, 100)] [] [] [])).2.stored
      = eraseKey [(9, 100)] 9 := by
  refine ⟨by decide, by decide, ?_⟩
  have h := C7_stop_kill_window
    (StopEnv.mk [ProcInfo.mk 100 ("vrchat.exe") ("") ("")] (fun _ => [true])) 9
    (MState.mk [(9, 100)] [] [] []) 100 (by decide)
  have h2 := h.2.1 (by decide)
  exact ⟨h2.1, h2.2.2⟩

/-- C3: a monitor cycle binds each unlabeled worker pid that is not already a
table value to the earliest-enqueued non-suppressed profile of the Pending
Queue, in strict FIFO order, discarding suppressed profiles popped on the way:
the pop loop equals dropping the suppressed prefix and taking the head; and for
launches `[3, 1, 2]` with three unlabeled detections in order, the bindings are
first pid to 3, second to 1, third to 2, regardless of pid values. -/
theorem C3_fifo_assignment (s l : List Nat) (a b c : Nat)
    (hab : a ≠ b) (hac : a ≠ c) (hbc : b ≠ c) :
    assignPending s l = ((l.dropWhile (fun q => s.contains q)).head?,
                         (l.dropWhile (fun q => s.contains q)).tail) ∧
    (lookupK 3 (monitorCycle [(a, none), (b, none), (c, none)]
        (MState.mk [] [3, 1, 2] [] [])).stored = some a ∧
     lookupK 1 (monitorCycle [(a, none), (b, none), (c, none)]
        (MState.mk [] [3, 1, 2] [] [])).stored = some b ∧
     lookupK 2 (monitorCycle [(a, none), (b, none), (c, none)]
        (MState.mk [] [3, 1, 2] [] [])).stored = some c ∧
     (monitorCycle [(a, none), (b, none), (c, none)]
        (MState.mk [] [3, 1, 2] [] [])).pending = []) := by
  constructor
  · induction l with
    | nil => rfl
    | cons q qs ih =>
      by_cases hq : q ∈ s
      · have hc : s.contains q = true := by simpa using hq
        simp only [assignPending, List.dropWhile_cons, hc, if_true, ih]
      · have hc : s.contains q = false := by simpa using hq
        simp only [assignPending, List.dropWhile_cons, hc, if_false]
        simp
  · have h1 : monitorCycle [(a, none), (b, none), (c, none)]
        (MState.mk [] [3, 1, 2] [] []) = MState.mk [(3, a), (1, b), (2, c)] [] [] [] := by
      simp [monitorCycle, evictPass, assignStep, assignPending, insertKey, lookupK,
        beq_eq_false_iff_ne.mpr hab, beq_eq_false_iff_ne.mpr hac,
        beq_eq_false_iff_ne.mpr hbc]
    rw [h1]
    refine ⟨?_, ?_, ?_, rfl⟩ <;> simp [lookupK]

/-- Witness for C3 at pids 7, 8, 9: the cycle binds 3 to the first pid, 1 to
the second, 2 to the third. -/
theorem C3_fifo_assignment_witness :
    (7 : Nat) ≠ 8 ∧ (7 : Nat) ≠ 9 ∧ (8 : Nat) ≠ 9 ∧
    lookupK 3 (monitorCycle [(7, none), (8, none), (9, none)]
        (MState.mk [] [3, 1, 2] [] [])).stored = some 7 ∧
    lookupK 1 (monitorCycle [(7, none), (8, none), (9, none)]
        (MState.mk [] [3, 1, 2] [] [])).stored = some 8 ∧
    lookupK 2 (monitorCycle [(7, none), (8, none), (9, none)]
        (MState.mk [] [3, 1, 2] [] [])).stored = some 9 ∧
    (monitorCycle [(7, none), (8, none), (9, none)]
        (MState.mk [] [3, 1, 2] [] [])).pending = [] := by
  refine ⟨by decide, by decide, by decide, ?_⟩
  have h := C3_fifo_assignment [] [] 7 8 9 (by decide) (by decide) (by decide)
  exact h.2

/-- C2 counterexample: from the empty state, profile 5 is bound to pid 100,
misses one poll (counter 1), is stopped (the counter survives, as the code
never clears it in Stop), relaunched, and rebound to pid 200 by the queue.
In the reachable state st5 the profile is bound with a stale counter of 1, not
suppressed; its pid 200 is then absent for exactly one cycle and present again
the next — yet the binding is evicted by that single absent cycle, refuting
"the binding is never evicted". -/
theorem C2_counterexample :
    (let st5 := monitorCycle [(200, none)]
        (launch_vrchat (LaunchEnv.mk (fun _ => false) (Except.ok 77)) 5
          (stop_vrchat (StopEnv.mk [ProcInfo.mk 100 ("VRChat.exe") ("") ("")]
              (fun _ => [true])) 5
            (monitorCycle [] (monitorCycle [(100, some 5)]
              (MState.mk [] [] [] [])))).2).2;
     lookupK 5 st5.stored = some 200 ∧ lookupK 5 st5.missed = some 1 ∧
     st5.stopping = [] ∧
     lookupK 5 (monitorCycle [] st5).stored = none ∧
     lookupK 5 (monitorCycle [(200, none)] (monitorCycle [] st5)).stored = none) := by
  decide

/-- C2 amended: for a profile bound in the table, not suppressed, not pending,
not relabeled by the cycle's detections, and whose missed counter is absent:
one cycle without its pid followed by one cycle with it never evicts the
binding; two consecutive cycles without it evict the entry and clear the
counter.  (From a state with a stale counter of 1 — reachable after a Stop and
re-binding — a single absent cycle already evicts, as the counterexample
shows.) -/
theorem C2_debounce (st : MState) (p pid : Nat) (d1 d2 : List (Nat × Option Nat))
    (hnd : keysNodup st.stored)
    (hb : lookupK p st.stored = some pid)
    (hm : lookupK p st.missed = none)
    (hs : p ∉ st.stopping)
    (hq : p ∉ st.pending)
    (hl1 : ∀ x ∈ d1, x.2 ≠ some p)
    (ha1 : pid ∉ d1.map Prod.fst) :
    (pid ∈ d2.map Prod.fst →
      (lookupK p (monitorCycle d2 (monitorCycle d1 st)).stored).isSome = true) ∧
    (pid ∉ d2.map Prod.fst → (∀ x ∈ d2, x.2 ≠ some p) →
      lookupK p (monitorCycle d2 (monitorCycle d1 st)).stored = none ∧
      lookupK p (monitorCycle d2 (monitorCycle d1 st)).missed = none) := by
  obtain ⟨hb1, hm1⟩ := (cycleState_missed st p pid d1 hnd hb hs hq hl1 ha1).1 hm
  have hnd1 : keysNodup (monitorCycle d1 st).stored := monitorCycle_nodup d1 st hnd
  have hs1 : p ∉ (monitorCycle d1 st).stopping := by
    rw [monitorCycle_stopping]; exact hs
  have hq1 : p ∉ (monitorCycle d1 st).pending :=
    fun hx => hq (monitorCycle_pending_sub d1 st p hx)
  constructor
  · intro ha2
    exact (cycleState_seen (monitorCycle d1 st) p pid d2 hnd1 hb1 hs1 ha2).1
  · intro ha2 hl2
    exact (cycleState_missed (monitorCycle d1 st) p pid d2 hnd1 hb1 hs1 hq1 hl2 ha2).2 hm1

/-- Witness for the amended C2: profile 4 bound to pid 50 with a clean counter;
one empty cycle then a cycle seeing pid 50 keeps the binding, while two empty
cycles evict it and clear the counter. -/
theorem C2_debounce_witness :
    keysNodup (MState.mk [(4, 50)] [] [] []).stored ∧
    lookupK 4 (MState.mk [(4, 50)] [] [] []).stored = some 50 ∧
    lookupK 4 (MState.mk [(4, 50)] [] [] []).missed = none ∧
    (lookupK 4 (monitorCycle [(50, none)]
        (monitorCycle [] (MState.mk [(4, 50)] [] [] []))).stored).isSome = true ∧
    lookupK 4 (monitorCycle [] (monitorCycle [] (MState.mk [(4, 50)] [] [] []))).stored
      = none ∧
    lookupK 4 (monitorCycle [] (monitorCycle [] (MState.mk [(4, 50)] [] [] []))).missed
      = none := by
  refine ⟨by decide, by decide, by decide, ?_, ?_, ?_⟩
  · have h := C2_debounce (MState.mk [(4, 50)] [] [] []) 4 50 [] [(50, none)]
      (by decide) (by decide) (by decide) (by decide) (by decide)
      (by intro x hx; cases hx) (by decide)
    exact h.1 (by decide)
  · have h := C2_debounce (MState.mk [(4, 50)] [] [] []) 4 50 [] []
      (by decide) (by decide) (by decide) (by decide) (by decide)
      (by intro x hx; cases hx) (by decide)
    exact (h.2 (by decide) (by intro x hx; cases hx)).1
  · have h := C2_debounce (MState.mk [(4, 50)] [] [] []) 4 50 [] []
      (by decide) (by decide) (by decide) (by decide) (by decide)
      (by intro x hx; cases hx) (by decide)
    exact (h.2 (by decide) (by intro x hx; cases hx)).2

/-! ### Extraction lemmas -/

theorem afterFirst_eq_none (pat cs : List Char)
    (h : strContainsAux pat cs = false) : afterFirst pat cs = none := by
  induction cs with
  | nil => rfl
  | cons c rest ih =>
    simp only [strContainsAux, Bool.or_eq_false_iff] at h
    simp only [afterFirst]
    rw [if_neg (by simp [h.1])]
    exact ih h.2

theorem afterFirst_here (pat l : List Char) (hl : l ≠ [])
    (hp : pat.isPrefixOf l = true) : afterFirst pat l = some (l.drop pat.length) := by
  cases l with
  | nil => exact absurd rfl hl
  | cons c rest =>
    simp only [afterFirst]
    rw [if_pos hp]

theorem profileTag_no_overlap :
    ∀ k, k < 10 → 0 < k → profileTag.drop k ≠ profileTag.take (10 - k) := by
  decide

theorem afterFirst_append (pre suf : List Char)
    (h : strContainsAux profileTag pre = false) :
    afterFirst profileTag (pre ++ profileTag ++ suf) = some suf := by
  have htaglen : profileTag.length = 10 := by decide
  have htagne : profileTag ≠ [] := by decide
  induction pre with
  | nil =>
    simp only [List.nil_append]
    have hp : profileTag.isPrefixOf (profileTag ++ suf) = true :=
      List.isPrefixOf_iff_prefix.mpr (List.prefix_append _ _)
    have hne : profileTag ++ suf ≠ [] := by
      intro hx
      exact htagne (List.append_eq_nil.mp hx).1
    rw [afterFirst_here profileTag (profileTag ++ suf) hne hp, List.drop_left]
  | cons ch pre2 ih =>
    simp only [strContainsAux, Bool.or_eq_false_iff] at h
    have hnp : ¬ profileTag.isPrefixOf (ch :: (pre2 ++ profileTag ++ suf)) = true := by
      intro hpf
      have hpre : profileTag <+: (ch :: pre2) ++ (profileTag ++ suf) := by
        rw [ List.isPrefixOf_iff_prefix ] at hpf
        simpa using hpf
      have htake : profileTag = ((ch :: pre2) ++ (profileTag ++ suf)).take 10 := by
        have h0 := List.prefix_iff_eq_take.mp hpre
        rwa [htaglen] at h0
      by_cases hk : 10 ≤ (ch :: pre2).length
      · have h2 : profileTag = (ch :: pre2).take 10 := by
          conv_lhs => rw [htake]
          rw [List.take_append_of_le_length hk]
        have hpf2 : profileTag.isPrefixOf (ch :: pre2) = true := by
          rw [ List.isPrefixOf_iff_prefix , h2]
          exact List.take_prefix 10 (ch :: pre2)
        rw [h.1] at hpf2
        exact Bool.false_ne_true hpf2
      · push_neg at hk
        have h2 : profileTag = (ch :: pre2) ++ profileTag.take (10 - (ch :: pre2).length) := by
          conv_lhs => rw [htake]
          rw [List.take_append_eq_append_take,
            List.take_of_length_le (le_of_lt hk),
            List.take_append_of_le_length (by rw [htaglen]; omega)]
        have h3 : profileTag.drop ((ch :: pre2).length)
            = profileTag.take (10 - (ch :: pre2).length) := by
          conv_lhs => rw [h2]
          exact List.drop_left _ _
        exact profileTag_no_overlap ((ch :: pre2).length) hk (by simp) h3
    have hstep : afterFirst profileTag ((ch :: pre2) ++ profileTag ++ suf)
        = afterFirst profileTag (pre2 ++ profileTag ++ suf) := by
      have hx : (ch :: pre2) ++ profileTag ++ suf
          = ch :: (pre2 ++ profileTag ++ suf) := by
        simp
      rw [hx]
      simp only [afterFirst]
      rw [if_neg hnp]
    rw [hstep]
    exact ih h.2

theorem parseU32_digits (ds : List Char) (h1 : ds ≠ []) (h2 : ds.all Char.isDigit = true)
    (h3 : natOfDigits ds < 4294967296) : parseU32 ds = some (natOfDigits ds) := by
  have hplus : ¬ ds.head? = some '+' := by
    cases ds with
    | nil => simp
    | cons c cs =>
      simp only [List.head?]
      intro hx
      injection hx with hx2
      subst hx2
      simp only [List.all_cons, Bool.and_eq_true] at h2
      exact absurd h2.1 (by decide)
  have hne : (!ds.isEmpty && ds.all Char.isDigit) = true := by
    cases ds with
    | nil => exact absurd rfl h1
    | cons c cs => simp [h2]
  simp only [parseU32]
  rw [if_neg hplus, if_pos hne, if_pos h3]

theorem takeWhile_digits (ds rest : List Char) (h : ds.all Char.isDigit = true) :
    (ds ++ ' ' :: rest).takeWhile (fun c => c ≠ ' ') = ds ∧
    ds.takeWhile (fun c => c ≠ ' ') = ds := by
  induction ds with
  | nil =>
    constructor
    · simp [List.takeWhile_cons]
    · rfl
  | cons c cs ih =>
    simp only [List.all_cons, Bool.and_eq_true] at h
    have hcs : c ≠ ' ' := by
      intro hx
      subst hx
      exact absurd h.1 (by decide)
    obtain ⟨ih1, ih2⟩ := ih h.2
    constructor
    · rw [List.cons_append, List.takeWhile_cons, if_pos (by simp [hcs]), ih1]
    · rw [List.takeWhile_cons, if_pos (by simp [hcs]), ih2]

/-- C6: profile extraction is a total function on command-line strings: when
the tag `--profile=` does not occur, the result is `none`; when the string is
`pre ++ "--profile=" ++ suf` with no earlier occurrence of the tag in `pre`,
the result is exactly the `u32` parse of the run of characters of `suf` up to
the next space or end of string (so a malformed run yields `none`); and for a
nonempty digit run whose value fits in 32 bits, followed by a space or the end
of the string, the extracted value is that run's decimal value. -/
theorem C6_extraction :
    (∀ cs : List Char, strContainsAux profileTag cs = false →
       extract_profile_from_cmd cs = none) ∧
    (∀ pre suf : List Char, strContainsAux profileTag pre = false →
       extract_profile_from_cmd (pre ++ profileTag ++ suf)
         = parseU32 (suf.takeWhile (fun c => c ≠ ' '))) ∧
    (∀ pre ds rest : List Char, strContainsAux profileTag pre = false →
       ds ≠ [] → ds.all Char.isDigit = true → natOfDigits ds < 4294967296 →
       extract_profile_from_cmd (pre ++ profileTag ++ (ds ++ ' ' :: rest))
         = some (natOfDigits ds) ∧
       extract_profile_from_cmd (pre ++ profileTag ++ ds)
         = some (natOfDigits ds)) := by
  refine ⟨?_, ?_, ?_⟩
  · intro cs h
    unfold extract_profile_from_cmd
    rw [afterFirst_eq_none profileTag cs h]
  · intro pre suf hpre
    unfold extract_profile_from_cmd
    rw [afterFirst_append pre suf hpre]
  · intro pre ds rest hpre hne hdig hlt
    obtain ⟨ht1, ht2⟩ := takeWhile_digits ds rest hdig
    constructor
    · unfold extract_profile_from_cmd
      rw [afterFirst_append pre (ds ++ ' ' :: rest) hpre]
      show parseU32 ((ds ++ ' ' :: rest).takeWhile (fun c => c ≠ ' '))
        = some (natOfDigits ds)
      rw [ht1, parseU32_digits ds hne hdig hlt]
    · unfold extract_profile_from_cmd
      rw [afterFirst_append pre ds hpre]
      show parseU32 (ds.takeWhile (fun c => c ≠ ' ')) = some (natOfDigits ds)
      rw [ht2, parseU32_digits ds hne hdig hlt]

/-- Witness for C6: extraction on `vrchat.exe --no-vr --profile=42 --x` yields
42, and a string without the tag yields none. -/
theorem C6_extraction_witness :
    strContainsAux profileTag (("vrchat.exe --no-vr ").toList) = false ∧
    extract_profile_from_cmd ((("vrchat.exe --no-vr ").toList) ++ profileTag ++
      ((("42").toList) ++ ' ' :: (("--x").toList))) = some (natOfDigits (("42").toList)) ∧
    extract_profile_from_cmd (("no tag here").toList) = none := by
  refine ⟨by decide, ?_, ?_⟩
  · exact (C6_extraction.2.2 (("vrchat.exe --no-vr ").toList) (("42").toList)
      (("--x").toList) (by decide) (by decide) (by decide) (by decide)).1
  · exact C6_extraction.1 (("no tag here").toList) (by decide)

end TerrorsMiner
